import Mathlib

/-!
Shallow embedding of `src/src/mm_fill_em.c` (goma's frequency-domain EM wave
assembly): the volume assembler `assemble_emwave`, the boundary kernel
`apply_em_farfield_direct`, and the algebra utility `complex_cross_vectors`.
C `double` arithmetic is modelled exactly over `ℚ`; C99 `complex` values are
modelled by pairs of rationals.  External collaborators (basis functions,
material-property resolvers, the `csqrt` library routine) enter as explicit
context fields, so every definition is executable on concrete inputs.
-/

namespace Goma

/-- A C99 `complex` value (pair of doubles), modelled with exact rational
real and imaginary parts. -/
structure Cplx where
  re : ℚ
  im : ℚ
deriving DecidableEq, Repr

namespace Cplx

@[ext]
theorem ext' {z w : Cplx} (hre : z.re = w.re) (him : z.im = w.im) : z = w := by
  cases z; cases w; cases hre; cases him; rfl

theorem ext_iff {z w : Cplx} : z = w ↔ z.re = w.re ∧ z.im = w.im :=
  ⟨fun h => by cases h; exact ⟨rfl, rfl⟩, fun ⟨h1, h2⟩ => ext' h1 h2⟩

/-- Embed a real (rational) value as a complex value, as C promotes
`double` to `double complex`. -/
def ofRat (q : ℚ) : Cplx := ⟨q, 0⟩

@[simp] theorem ofRat_re (q : ℚ) : (ofRat q).re = q := rfl
@[simp] theorem ofRat_im (q : ℚ) : (ofRat q).im = 0 := rfl

instance : Zero Cplx := ⟨⟨0, 0⟩⟩
@[simp] theorem zero_re : (0 : Cplx).re = 0 := rfl
@[simp] theorem zero_im : (0 : Cplx).im = 0 := rfl

instance : One Cplx := ⟨⟨1, 0⟩⟩
@[simp] theorem one_re : (1 : Cplx).re = 1 := rfl
@[simp] theorem one_im : (1 : Cplx).im = 0 := rfl

instance : Inhabited Cplx := ⟨0⟩

/-- The imaginary unit, modelling `_Complex_I`. -/
def I : Cplx := ⟨0, 1⟩

instance : Add Cplx := ⟨fun z w => ⟨z.re + w.re, z.im + w.im⟩⟩
@[simp] theorem add_re (z w : Cplx) : (z + w).re = z.re + w.re := rfl
@[simp] theorem add_im (z w : Cplx) : (z + w).im = z.im + w.im := rfl

instance : Neg Cplx := ⟨fun z => ⟨-z.re, -z.im⟩⟩
@[simp] theorem neg_re (z : Cplx) : (-z).re = -z.re := rfl
@[simp] theorem neg_im (z : Cplx) : (-z).im = -z.im := rfl

instance : Sub Cplx := ⟨fun z w => z + -w⟩
@[simp] theorem sub_re (z w : Cplx) : (z - w).re = z.re - w.re := by
  show z.re + -w.re = z.re - w.re; ring
@[simp] theorem sub_im (z w : Cplx) : (z - w).im = z.im - w.im := by
  show z.im + -w.im = z.im - w.im; ring

instance : Mul Cplx :=
  ⟨fun z w => ⟨z.re * w.re - z.im * w.im, z.re * w.im + z.im * w.re⟩⟩
@[simp] theorem mul_re (z w : Cplx) : (z * w).re = z.re * w.re - z.im * w.im := rfl
@[simp] theorem mul_im (z w : Cplx) : (z * w).im = z.re * w.im + z.im * w.re := rfl

instance addCommGroup : AddCommGroup Cplx := by
  refine
  { add := (· + ·)
    zero := (0 : Cplx)
    sub := fun a b => a + -b
    neg := Neg.neg
    nsmul := @nsmulRec Cplx ⟨0⟩ ⟨(· + ·)⟩
    zsmul := @zsmulRec Cplx ⟨0⟩ ⟨(· + ·)⟩ ⟨Neg.neg⟩ (@nsmulRec Cplx ⟨0⟩ ⟨(· + ·)⟩)
    add_assoc := ?_
    zero_add := ?_
    add_zero := ?_
    neg_add_cancel := ?_
    add_comm := ?_ } <;>
  intros <;>
  ext <;>
  simp [add_comm, add_left_comm]

instance commRing : CommRing Cplx := by
  refine
  { Goma.Cplx.addCommGroup with
    mul := (· * ·)
    one := (1 : Cplx)
    npow := @npowRec Cplx ⟨1⟩ ⟨(· * ·)⟩
    add_comm := ?_
    left_distrib := ?_
    right_distrib := ?_
    zero_mul := ?_
    mul_zero := ?_
    mul_assoc := ?_
    one_mul := ?_
    mul_one := ?_
    mul_comm := ?_ } <;>
  intros <;>
  ext <;>
  simp <;>
  ring

/-- The squared modulus used as the denominator of complex division. -/
def normSq (z : Cplx) : ℚ := z.re * z.re + z.im * z.im

/-- C99 complex division, modelled by the exact textbook formula
`z/w = z·conj(w)/|w|²` (`ℚ` division is total with `x/0 = 0`). -/
instance : Div Cplx :=
  ⟨fun z w => ⟨(z.re * w.re + z.im * w.im) / normSq w,
               (z.im * w.re - z.re * w.im) / normSq w⟩⟩

@[simp] theorem div_re (z w : Cplx) :
    (z / w).re = (z.re * w.re + z.im * w.im) / normSq w := rfl
@[simp] theorem div_im (z w : Cplx) :
    (z / w).im = (z.im * w.re - z.re * w.im) / normSq w := rfl

theorem normSq_ne_zero {z : Cplx} (h : z ≠ 0) : normSq z ≠ 0 := by
  intro hz
  apply h
  unfold normSq at hz
  have h1 : z.re * z.re = 0 := by
    nlinarith [mul_self_nonneg z.re, mul_self_nonneg z.im]
  have h2 : z.im * z.im = 0 := by
    nlinarith [mul_self_nonneg z.re, mul_self_nonneg z.im]
  ext
  · exact mul_self_eq_zero.mp h1
  · exact mul_self_eq_zero.mp h2

/-- `creal` from `<complex.h>`. -/
def creal (z : Cplx) : ℚ := z.re

/-- `cimag` from `<complex.h>`. -/
def cimag (z : Cplx) : ℚ := z.im

end Cplx

/-- Modelled from the spec: the Levi-Civita permutation symbol `permute(i,j,k)`
from goma's element header (the header is not part of `src/`): `+1` on even
permutations of `(0,1,2)`, `-1` on odd permutations, `0` when any index
repeats. -/
def permute : ℕ → ℕ → ℕ → ℚ
  | 0, 1, 2 => 1
  | 1, 2, 0 => 1
  | 2, 0, 1 => 1
  | 0, 2, 1 => -1
  | 2, 1, 0 => -1
  | 1, 0, 2 => -1
  | _, _, _ => 0

/-- Modelled from the spec: the Kronecker delta `delta(i,j)` from goma's
element header (the header is not part of `src/`). -/
def delta (i j : ℕ) : ℚ := if i = j then 1 else 0

/-- `complex_cross_vectors` (src/src/mm_fill_em.c:811-823): `v2` is zeroed by
`memset` and then accumulated with `v2[k] += permute(i,j,k)*v0[i]*v1[j]` over
all `i, j, k < DIM = 3`; the accumulation loop is modelled by the
corresponding finite sum. -/
def complex_cross_vectors (v0 v1 : Fin 3 → Cplx) : Fin 3 → Cplx :=
  fun k => ∑ i : Fin 3, ∑ j : Fin 3,
    Cplx.ofRat (permute i.val j.val k.val) * v0 i * v1 j

/-- C8: `complex_cross_vectors` computes the permutation-tensor double sum
`v2[k] = Σ_i Σ_j permute(i,j,k)·v0[i]·v1[j]`, and the resulting cross product
is anticommutative componentwise. -/
theorem complex_cross_vectors_sum_and_anticomm (a b : Fin 3 → Cplx) (k : Fin 3) :
    complex_cross_vectors a b k =
      (∑ i : Fin 3, ∑ j : Fin 3,
        Cplx.ofRat (permute i.val j.val k.val) * a i * b j) ∧
    complex_cross_vectors a b k = - complex_cross_vectors b a k := by
  refine ⟨rfl, ?_⟩
  unfold complex_cross_vectors
  fin_cases k <;>
  · simp only [Fin.sum_univ_three]
    norm_num [permute, Cplx.ofRat]
    ext <;> simp <;> ring

/-- The local constant `dbl mag_permeability = 1.4e-07` appearing in both
`assemble_emwave` (src/src/mm_fill_em.c:109) and `apply_em_farfield_direct`
(src/src/mm_fill_em.c:624). -/
def mag_permeability : ℚ := 14 / 100000000

/-- The complex permittivity computed identically at
src/src/mm_fill_em.c:190-192, 649-651 and 664-666:
`cpx_refractive_index = n + _Complex_I*k`,
`cpx_rel_permittivity = SQUARE(cpx_refractive_index)`,
`cpx_permittivity = cpx_rel_permittivity * mp->permittivity`. -/
def cpxPermittivity (n k permittivity : ℚ) : Cplx :=
  let cpx_refractive_index : Cplx := Cplx.ofRat n + Cplx.I * Cplx.ofRat k
  cpx_refractive_index * cpx_refractive_index * Cplx.ofRat permittivity

/-- `impedance = csqrt(mag_permeability/cpx_permittivity)`
(src/src/mm_fill_em.c:653 and 668); `csqrt` is the external C library complex
square root, passed in as an explicit function. -/
def impedanceOf (csqrt : Cplx → Cplx) (mu : ℚ) (eps : Cplx) : Cplx :=
  csqrt (Cplx.ofRat mu / eps)

/-- `Gamma = (impedance2 - impedance1)/(impedance2 + impedance1)`
(src/src/mm_fill_em.c:681). -/
def farGamma (impedance1 impedance2 : Cplx) : Cplx :=
  (impedance2 - impedance1) / (impedance2 + impedance1)

/-- `tau = (2.0*impedance2)/(impedance2 + impedance1)`
(src/src/mm_fill_em.c:682). -/
def farTau (impedance1 impedance2 : Cplx) : Cplx :=
  Cplx.ofRat 2 * impedance2 / (impedance2 + impedance1)

/-- C5: the boundary coefficients of `apply_em_farfield_direct` satisfy
`Γ = (Z₂−Z₁)/(Z₂+Z₁)` and `τ = 2·Z₂/(Z₂+Z₁)`; whenever `Z₂+Z₁ ≠ 0` they obey
`τ − Γ = 1`; and each impedance is derived from its permittivity as
`csqrt(μ/ε)`. -/
theorem farfield_coefficients_consistency
    (csqrt : Cplx → Cplx) (mu : ℚ) (eps Z1 Z2 : Cplx) (h : Z2 + Z1 ≠ 0) :
    farGamma Z1 Z2 = (Z2 - Z1) / (Z2 + Z1) ∧
    farTau Z1 Z2 = Cplx.ofRat 2 * Z2 / (Z2 + Z1) ∧
    farTau Z1 Z2 - farGamma Z1 Z2 = 1 ∧
    impedanceOf csqrt mu eps = csqrt (Cplx.ofRat mu / eps) := by
  refine ⟨rfl, rfl, ?_, rfl⟩
  have hN : Cplx.normSq (Z2 + Z1) ≠ 0 := Cplx.normSq_ne_zero h
  unfold farTau farGamma
  apply Cplx.ext'
  · simp only [Cplx.sub_re, Cplx.div_re, Cplx.one_re]
    rw [div_sub_div_same, div_eq_iff hN]
    simp [Cplx.normSq]
    ring
  · simp only [Cplx.sub_im, Cplx.div_im, Cplx.one_im]
    rw [div_sub_div_same, div_eq_zero_iff]
    left
    simp
    ring

/-- Witness for C5 at the concrete impedances `Z₁ = 1`, `Z₂ = 2`. -/
theorem farfield_coefficients_consistency_witness :
    ((⟨2, 0⟩ : Cplx) + ⟨1, 0⟩ ≠ 0) ∧
    (farGamma ⟨1, 0⟩ ⟨2, 0⟩ = ((⟨2, 0⟩ : Cplx) - ⟨1, 0⟩) / ((⟨2, 0⟩ : Cplx) + ⟨1, 0⟩) ∧
     farTau ⟨1, 0⟩ ⟨2, 0⟩ = Cplx.ofRat 2 * ⟨2, 0⟩ / ((⟨2, 0⟩ : Cplx) + ⟨1, 0⟩) ∧
     farTau ⟨1, 0⟩ ⟨2, 0⟩ - farGamma ⟨1, 0⟩ ⟨2, 0⟩ = 1 ∧
     impedanceOf (fun z => z) 1 ⟨1, 0⟩ = (fun z => z) (Cplx.ofRat 1 / ⟨1, 0⟩)) :=
  ⟨by norm_num [Cplx.ext_iff],
   farfield_coefficients_consistency (fun z => z) 1 ⟨1, 0⟩ ⟨1, 0⟩ ⟨2, 0⟩
     (by norm_num [Cplx.ext_iff])⟩

/- Modelled from the spec: identifiers from goma's headers `rf_fem_const.h`
and `rf_fill_const.h` (not part of `src/`).  Their concrete values are
arbitrary but distinct; the three Cartesian components of each EM family are
consecutive, as required by the `cross_field_var + b` and
`MESH_DISPLACEMENT1 + b` index arithmetic in the source. -/

def TEMPERATURE : Int := 4

def MASS_FRACTION : Int := 5

def MESH_DISPLACEMENT1 : Int := 10

def EM_E1_REAL : Int := 40

def EM_E2_REAL : Int := 41

def EM_E3_REAL : Int := 42

def EM_E1_IMAG : Int := 43

def EM_E2_IMAG : Int := 44

def EM_E3_IMAG : Int := 45

def EM_H1_REAL : Int := 46

def EM_H2_REAL : Int := 47

def EM_H3_REAL : Int := 48

def EM_H1_IMAG : Int := 49

def EM_H2_IMAG : Int := 50

def EM_H3_IMAG : Int := 51

/-- Modelled from the spec: the `T_ADVECTION` term-activation bit and its log
`LOG2_ADVECTION` used to index `pd->etm` (header not part of `src/`). -/
def T_ADVECTION : Int := 2

def LOG2_ADVECTION : ℕ := 1

/-- Modelled from the spec: the `T_DIFFUSION` term-activation bit and its log
`LOG2_DIFFUSION` (header not part of `src/`). -/
def T_DIFFUSION : Int := 32

def LOG2_DIFFUSION : ℕ := 5

/-- `CONDUCTIVITY_DEPENDENCE_STRUCT`: sensitivities of a material property to
temperature (`T[j]`), mesh position (`X[b][j]`) and species concentration
(`C[w][j]`), supplied by the external Coefficient Resolver. -/
structure SensDep where
  T : ℕ → ℚ
  X : ℕ → ℕ → ℚ
  C : ℕ → ℕ → ℚ
deriving Inhabited

/-- The element basis-function data `bf[var]` the assembler reads. -/
structure BasisData where
  phi : ℕ → ℚ
  grad_phi : ℕ → ℕ → ℚ
  detJ : ℚ
  d_det_J_dm : ℕ → ℕ → ℚ
  d_grad_phi_dmesh : ℕ → ℕ → ℕ → ℕ → ℚ
deriving Inhabited

/-- Everything `assemble_emwave` reads from the global problem/element
structures (`pd`, `upd`, `ei`, `bf`, `fv`, `mp`, `af`, `xfem`) and from the
external material-property resolvers `refractive_index` (field `n`) and
`extinction_index` (field `k`).  `xfemSkip i` models the per-dof condition
`xfem != NULL && extended_dof && !xfem_active` of the xfem optimization. -/
structure EmCtx where
  numDim : ℕ
  e : Int → Int
  v : Int → Bool
  etm : Int → ℕ → ℚ
  numSpecies : ℕ
  ep : Int → ℕ
  vp : Int → ℕ
  acousticFreq : ℚ
  dof : Int → ℕ
  bf : Int → BasisData
  wt : ℚ
  h3 : ℚ
  dh3dq : ℕ → ℚ
  em_er : ℕ → ℚ
  em_ei : ℕ → ℚ
  em_hr : ℕ → ℚ
  em_hi : ℕ → ℚ
  permittivity : ℚ
  n : ℚ
  k : ℚ
  d_n : SensDep
  d_k : SensDep
  assembleResidual : Bool
  assembleJacobian : Bool
  xfemSkip : ℕ → Bool
  maxProbVar : ℕ
deriving Inhabited

/-- The caller's Local Accumulator `lec`: residual entries `R[peqn][i]` and
Jacobian entries `J[peqn][pvar][i][j]`. -/
structure LocalAccum where
  R : ℕ → ℕ → ℚ
  J : ℕ → ℕ → ℕ → ℕ → ℚ
deriving Inhabited

/-- `lec->R[a][i] += val`. -/
def updR (lec : LocalAccum) (a i : ℕ) (val : ℚ) : LocalAccum :=
  { lec with
    R := fun a' i' => if a' = a ∧ i' = i then lec.R a' i' + val else lec.R a' i' }

/-- `lec->J[a][b][i][j] += val`. -/
def updJ (lec : LocalAccum) (a b i j : ℕ) (val : ℚ) : LocalAccum :=
  { lec with
    J := fun a' b' i' j' =>
      if a' = a ∧ b' = b ∧ i' = i ∧ j' = j then lec.J a' b' i' j' + val
      else lec.J a' b' i' j' }

/-- The first `switch(em_var)` of `assemble_emwave`
(src/src/mm_fill_em.c:196-237): picks the primary field value `EMF`, its
conjugate partner `EMF_conj` and the direction index `dir`.  `none` is the
`default` arm, where the source raises `EH(-1,...)` and returns `-1`. -/
def selectEMF (ctx : EmCtx) (em_var : Int) : Option (ℚ × ℚ × ℕ) :=
  if em_var = EM_E1_REAL then some (ctx.em_er 0, ctx.em_ei 0, 0)
  else if em_var = EM_E1_IMAG then some (ctx.em_ei 0, ctx.em_er 0, 0)
  else if em_var = EM_E2_REAL then some (ctx.em_er 1, ctx.em_ei 1, 1)
  else if em_var = EM_E2_IMAG then some (ctx.em_ei 1, ctx.em_er 1, 1)
  else if em_var = EM_E3_REAL then some (ctx.em_er 2, ctx.em_ei 2, 2)
  else if em_var = EM_E3_IMAG then some (ctx.em_ei 2, ctx.em_er 2, 2)
  else if em_var = EM_H1_REAL then some (ctx.em_hr 0, ctx.em_hi 0, 0)
  else if em_var = EM_H1_IMAG then some (ctx.em_hi 0, ctx.em_hr 0, 0)
  else if em_var = EM_H2_REAL then some (ctx.em_hr 1, ctx.em_hi 1, 1)
  else if em_var = EM_H2_IMAG then some (ctx.em_hi 1, ctx.em_hr 1, 1)
  else if em_var = EM_H3_REAL then some (ctx.em_hr 2, ctx.em_hi 2, 2)
  else if em_var = EM_H3_IMAG then some (ctx.em_hi 2, ctx.em_hr 2, 2)
  else none

/-- The coupling coefficients, their `n`/`k` sensitivities, and the cross
field chosen by the second `switch(em_var)` (src/src/mm_fill_em.c:238-285). -/
structure CoeffSel where
  emf_coeff : ℚ
  conj_coeff : ℚ
  emf_coeff_dn : ℚ
  emf_coeff_dk : ℚ
  conj_coeff_dn : ℚ
  conj_coeff_dk : ℚ
  cross_field_var : Int
  cross_field : ℕ → ℚ
deriving Inhabited

/-- The second `switch(em_var)` of `assemble_emwave`
(src/src/mm_fill_em.c:238-285), exactly as the source computes it; note the
unguarded divisions by `n` and by `k` in the E-equation sensitivities
(src lines 245-248 and 257-260). -/
def selectCoeffs (ctx : EmCtx) (em_var : Int) : Option CoeffSel :=
  let omega := ctx.acousticFreq
  let cpx_permittivity := cpxPermittivity ctx.n ctx.k ctx.permittivity
  if em_var = EM_E1_REAL ∨ em_var = EM_E2_REAL ∨ em_var = EM_E3_REAL then
    some { emf_coeff := omega * cpx_permittivity.cimag
         , conj_coeff := omega * cpx_permittivity.creal
         , emf_coeff_dn := omega * cpx_permittivity.cimag / ctx.n
         , emf_coeff_dk := omega * cpx_permittivity.cimag / ctx.k
         , conj_coeff_dn := omega * cpx_permittivity.creal / ctx.n
         , conj_coeff_dk := omega * cpx_permittivity.creal / ctx.k
         , cross_field_var := EM_H1_REAL
         , cross_field := fun p => ctx.em_hr p }
  else if em_var = EM_E1_IMAG ∨ em_var = EM_E2_IMAG ∨ em_var = EM_E3_IMAG then
    some { emf_coeff := omega * cpx_permittivity.cimag
         , conj_coeff := -(omega * cpx_permittivity.creal)
         , emf_coeff_dn := omega * cpx_permittivity.cimag / ctx.n
         , emf_coeff_dk := omega * cpx_permittivity.cimag / ctx.k
         , conj_coeff_dn := -(omega * cpx_permittivity.creal) / ctx.n
         , conj_coeff_dk := omega * cpx_permittivity.creal / ctx.k
         , cross_field_var := EM_H1_IMAG
         , cross_field := fun p => ctx.em_hi p }
  else if em_var = EM_H1_REAL ∨ em_var = EM_H2_REAL ∨ em_var = EM_H3_REAL then
    some { emf_coeff := 0
         , conj_coeff := -(omega * mag_permeability)
         , emf_coeff_dn := 0
         , emf_coeff_dk := 0
         , conj_coeff_dn := 0
         , conj_coeff_dk := 0
         , cross_field_var := EM_E1_REAL
         , cross_field := fun p => ctx.em_er p }
  else if em_var = EM_H1_IMAG ∨ em_var = EM_H2_IMAG ∨ em_var = EM_H3_IMAG then
    some { emf_coeff := 0
         , conj_coeff := omega * mag_permeability
         , emf_coeff_dn := 0
         , emf_coeff_dk := 0
         , conj_coeff_dn := 0
         , conj_coeff_dk := 0
         , cross_field_var := EM_E1_IMAG
         , cross_field := fun p => ctx.em_ei p }
  else none

/-- The advection-type residual contribution for test function `i`
(src/src/mm_fill_em.c:308-316): zero when `T_ADVECTION` is inactive. -/
def residTermAdv (ctx : EmCtx) (eqn : Int) (EMF EMF_conj : ℚ) (cs : CoeffSel)
    (i : ℕ) : ℚ :=
  if Int.land (ctx.e eqn) T_ADVECTION ≠ 0 then
    (cs.emf_coeff * EMF + cs.conj_coeff * EMF_conj) * ((ctx.bf eqn).phi i * ctx.h3)
      * ((ctx.bf eqn).detJ * ctx.wt) * ctx.etm eqn LOG2_ADVECTION
  else 0

/-- The diffusion (curl) residual contribution for test function `i`
(src/src/mm_fill_em.c:318-335): zero when `T_DIFFUSION` is inactive. -/
def residTermDiff (ctx : EmCtx) (eqn : Int) (dir : ℕ) (cs : CoeffSel)
    (i : ℕ) : ℚ :=
  if Int.land (ctx.e eqn) T_DIFFUSION ≠ 0 then
    (∑ p : Fin 3, ∑ q : Fin 3,
       -(permute p.val q.val dir * (ctx.bf eqn).grad_phi i p.val
          * cs.cross_field q.val))
      * ((ctx.bf eqn).detJ * ctx.wt) * ctx.h3 * ctx.etm eqn LOG2_DIFFUSION
  else 0

/-- The residual loop of `assemble_emwave` (src/src/mm_fill_em.c:290-341). -/
def residPhase (ctx : EmCtx) (eqn : Int) (EMF EMF_conj : ℚ) (dir : ℕ)
    (cs : CoeffSel) (lec : LocalAccum) : LocalAccum :=
  (List.range (ctx.dof eqn)).foldl (fun acc i =>
    if ctx.xfemSkip i then acc
    else updR acc (ctx.ep eqn) i
      (residTermAdv ctx eqn EMF EMF_conj cs i + residTermDiff ctx eqn dir cs i))
    lec

/-- The Jacobian advection entry `phi_i*coeff*phi_j*det_J*wt*h3*etm`
(src/src/mm_fill_em.c:381-388 and 400-407). -/
def jacAdvEntry (ctx : EmCtx) (eqn var : Int) (coeff : ℚ) (i j : ℕ) : ℚ :=
  if Int.land (ctx.e eqn) T_ADVECTION ≠ 0 then
    (ctx.bf eqn).phi i * coeff * (ctx.bf var).phi j * ((ctx.bf eqn).detJ * ctx.wt)
      * ctx.h3 * ctx.etm eqn LOG2_ADVECTION
  else 0

/-- The `EMF` and `EMF_conj` Jacobian blocks (src/src/mm_fill_em.c:375-409). -/
def jacVarBlock (ctx : EmCtx) (eqn var : Int) (coeff : ℚ) (i : ℕ)
    (lec : LocalAccum) : LocalAccum :=
  if ctx.v var = true then
    (List.range (ctx.dof var)).foldl (fun acc j =>
      updJ acc (ctx.ep eqn) (ctx.vp var) i j (jacAdvEntry ctx eqn var coeff i j))
      lec
  else lec

/-- The cross-field Jacobian entry (src/src/mm_fill_em.c:424-439). -/
def jacCrossEntry (ctx : EmCtx) (eqn var : Int) (dir b : ℕ) (i j : ℕ) : ℚ :=
  (∑ p : Fin 3, ∑ q : Fin 3,
     -(permute p.val q.val dir * (ctx.bf eqn).grad_phi i p.val * delta q.val b
        * (ctx.bf var).phi j))
    * ((ctx.bf eqn).detJ * ctx.wt) * ctx.h3 * ctx.etm eqn LOG2_DIFFUSION

/-- The cross-field Jacobian block (src/src/mm_fill_em.c:410-444); the update
itself sits inside the `T_DIFFUSION` conditional in the source. -/
def jacCrossBlock (ctx : EmCtx) (eqn : Int) (dir : ℕ) (cs : CoeffSel) (i : ℕ)
    (lec : LocalAccum) : LocalAccum :=
  (List.range ctx.numDim).foldl (fun acc b =>
    let var := cs.cross_field_var + Int.ofNat b
    if ctx.v var = true then
      (List.range (ctx.dof var)).foldl (fun acc2 j =>
        if Int.land (ctx.e eqn) T_DIFFUSION ≠ 0 then
          updJ acc2 (ctx.ep eqn) (ctx.vp var) i j (jacCrossEntry ctx eqn var dir b i j)
        else acc2) acc
    else acc) lec

/-- The temperature Jacobian entry (src/src/mm_fill_em.c:456-463). -/
def jacTempEntry (ctx : EmCtx) (eqn : Int) (EMF EMF_conj : ℚ) (cs : CoeffSel)
    (i j : ℕ) : ℚ :=
  if Int.land (ctx.e eqn) T_ADVECTION ≠ 0 then
    (ctx.bf eqn).phi i
      * (EMF * (cs.emf_coeff_dn * ctx.d_n.T j + cs.emf_coeff_dk * ctx.d_k.T j)
         + EMF_conj * (cs.conj_coeff_dn * ctx.d_n.T j + cs.conj_coeff_dk * ctx.d_k.T j))
      * ((ctx.bf eqn).detJ * ctx.wt) * ctx.h3 * ctx.etm eqn LOG2_ADVECTION
  else 0

/-- The temperature Jacobian block `J_e_T` (src/src/mm_fill_em.c:448-467). -/
def jacTempBlock (ctx : EmCtx) (eqn : Int) (EMF EMF_conj : ℚ) (cs : CoeffSel)
    (i : ℕ) (lec : LocalAccum) : LocalAccum :=
  if ctx.v TEMPERATURE = true then
    (List.range (ctx.dof TEMPERATURE)).foldl (fun acc j =>
      updJ acc (ctx.ep eqn) (ctx.vp TEMPERATURE) i j
        (jacTempEntry ctx eqn EMF EMF_conj cs i j)) lec
  else lec

/-- The mesh-displacement advection sensitivity (src/src/mm_fill_em.c:486-494). -/
def jacMeshAdv (ctx : EmCtx) (eqn : Int) (EMF EMF_conj : ℚ) (cs : CoeffSel)
    (b j i : ℕ) : ℚ :=
  let phi_j := (ctx.bf (MESH_DISPLACEMENT1 + Int.ofNat b)).phi j
  let dh3dmesh_bj := ctx.dh3dq b * phi_j
  let d_det_J_dmeshbj := (ctx.bf eqn).d_det_J_dm b j
  if Int.land (ctx.e eqn) T_ADVECTION ≠ 0 then
    ((ctx.bf eqn).phi i
       * (EMF * (cs.emf_coeff_dn * ctx.d_n.X b j + cs.emf_coeff_dk * ctx.d_k.X b j)
          + EMF_conj * (cs.conj_coeff_dn * ctx.d_n.X b j + cs.conj_coeff_dk * ctx.d_k.X b j))
       * ((ctx.bf eqn).detJ * ctx.h3 * ctx.wt)
     + (ctx.bf eqn).phi i * (cs.emf_coeff * EMF + cs.conj_coeff * EMF_conj)
       * (d_det_J_dmeshbj * ctx.h3 + (ctx.bf eqn).detJ * dh3dmesh_bj) * ctx.wt)
      * ctx.etm eqn LOG2_ADVECTION
  else 0

/-- The four mesh-sensitivity diffusion sub-terms `diff_a..diff_d`
(src/src/mm_fill_em.c:503-540), exactly as the source computes them: each is
a bare sum of basis-gradient components times geometric factors, with no
`permute(p,q,dir)`, no `cross_field` factor and no sign. -/
def jacMeshDiff (ctx : EmCtx) (eqn : Int) (b j i : ℕ) : ℚ :=
  let phi_j := (ctx.bf (MESH_DISPLACEMENT1 + Int.ofNat b)).phi j
  let dh3dmesh_bj := ctx.dh3dq b * phi_j
  let d_det_J_dmeshbj := (ctx.bf eqn).d_det_J_dm b j
  if Int.land (ctx.e eqn) T_DIFFUSION ≠ 0 then
    let diff_a := (∑ p ∈ Finset.range ctx.numDim, (ctx.bf eqn).d_grad_phi_dmesh i p b j)
                    * ((ctx.bf eqn).detJ * ctx.h3 * ctx.wt)
    let diff_b := (∑ p : Fin 3, (ctx.bf eqn).grad_phi i p.val)
                    * ((ctx.bf eqn).detJ * ctx.h3 * ctx.wt)
    let diff_c := (∑ p ∈ Finset.range ctx.numDim, (ctx.bf eqn).grad_phi i p)
                    * (d_det_J_dmeshbj * ctx.h3 * ctx.wt)
    let diff_d := (∑ p ∈ Finset.range ctx.numDim, (ctx.bf eqn).grad_phi i p)
                    * ((ctx.bf eqn).detJ * dh3dmesh_bj * ctx.wt)
    (diff_a + diff_b + diff_c + diff_d) * ctx.etm eqn LOG2_DIFFUSION
  else 0

/-- The mesh-displacement Jacobian block `J_e_d` (src/src/mm_fill_em.c:472-546). -/
def jacMeshBlock (ctx : EmCtx) (eqn : Int) (EMF EMF_conj : ℚ) (cs : CoeffSel)
    (i : ℕ) (lec : LocalAccum) : LocalAccum :=
  (List.range ctx.numDim).foldl (fun acc b =>
    let var := MESH_DISPLACEMENT1 + Int.ofNat b
    if ctx.v var = true then
      (List.range (ctx.dof var)).foldl (fun acc2 j =>
        updJ acc2 (ctx.ep eqn) (ctx.vp var) i j
          (jacMeshAdv ctx eqn EMF EMF_conj cs b j i + jacMeshDiff ctx eqn b j i))
        acc
    else acc) lec

/-- The species Jacobian entry (src/src/mm_fill_em.c:560-567). -/
def jacSpecEntry (ctx : EmCtx) (eqn : Int) (EMF EMF_conj : ℚ) (cs : CoeffSel)
    (w j i : ℕ) : ℚ :=
  if Int.land (ctx.e eqn) T_ADVECTION ≠ 0 then
    (ctx.bf eqn).phi i
      * (EMF * (cs.emf_coeff_dn * ctx.d_n.C w j + cs.emf_coeff_dk * ctx.d_k.C w j)
         + EMF_conj * (cs.conj_coeff_dn * ctx.d_n.C w j + cs.conj_coeff_dk * ctx.d_k.C w j))
      * ((ctx.bf eqn).detJ * ctx.wt) * ctx.h3 * ctx.etm eqn LOG2_ADVECTION
  else 0

/-- The species Jacobian block `J_e_c` (src/src/mm_fill_em.c:551-572); the
column offset is `MAX_PROB_VAR + w`. -/
def jacSpecBlock (ctx : EmCtx) (eqn : Int) (EMF EMF_conj : ℚ) (cs : CoeffSel)
    (i : ℕ) (lec : LocalAccum) : LocalAccum :=
  if ctx.e eqn ≠ 0 ∧ ctx.v MASS_FRACTION = true then
    (List.range ctx.numSpecies).foldl (fun acc w =>
      (List.range (ctx.dof MASS_FRACTION)).foldl (fun acc2 j =>
        updJ acc2 (ctx.ep eqn) (ctx.maxProbVar + w) i j
          (jacSpecEntry ctx eqn EMF EMF_conj cs w j i)) acc) lec
  else lec

/-- The Jacobian loop of `assemble_emwave` (src/src/mm_fill_em.c:348-575):
for each unskipped test function `i`, the primary-variable, conjugate,
cross-field, temperature, mesh-displacement and species blocks in source
order. -/
def jacPhase (ctx : EmCtx) (eqn em_var em_conjvar : Int) (EMF EMF_conj : ℚ)
    (dir : ℕ) (cs : CoeffSel) (lec : LocalAccum) : LocalAccum :=
  (List.range (ctx.dof eqn)).foldl (fun acc i =>
    if ctx.xfemSkip i then acc
    else
      jacSpecBlock ctx eqn EMF EMF_conj cs i
        (jacMeshBlock ctx eqn EMF EMF_conj cs i
          (jacTempBlock ctx eqn EMF EMF_conj cs i
            (jacCrossBlock ctx eqn dir cs i
              (jacVarBlock ctx eqn em_conjvar cs.conj_coeff i
                (jacVarBlock ctx eqn em_var cs.emf_coeff i acc)))))) lec

/-- `assemble_emwave` (src/src/mm_fill_em.c:92-578).  Returns the status and
the updated Local Accumulator.  The unused time-integration arguments are
kept for signature fidelity; `pg_data` is not read by the source at all. -/
def assemble_emwave (ctx : EmCtx) (_time _tt _dt : ℚ)
    (em_eqn em_var em_conjvar : Int) (lec : LocalAccum) : Int × LocalAccum :=
  if ctx.e em_eqn = 0 then (0, lec)
  else
    match selectEMF ctx em_var with
    | none => (-1, lec)
    | some (EMF, EMF_conj, dir) =>
      match selectCoeffs ctx em_var with
      | none => (-1, lec)
      | some cs =>
        let lec1 := if ctx.assembleResidual then
                      residPhase ctx em_eqn EMF EMF_conj dir cs lec
                    else lec
        let lec2 := if ctx.assembleJacobian then
                      jacPhase ctx em_eqn em_var em_conjvar EMF EMF_conj dir cs lec1
                    else lec1
        (0, lec2)

/-- The twelve recognized EM field-variable identifiers (the non-`default`
arms of both `switch(em_var)` statements). -/
def isValidEmVar (em_var : Int) : Bool :=
  em_var = EM_E1_REAL || em_var = EM_E1_IMAG || em_var = EM_E2_REAL ||
  em_var = EM_E2_IMAG || em_var = EM_E3_REAL || em_var = EM_E3_IMAG ||
  em_var = EM_H1_REAL || em_var = EM_H1_IMAG || em_var = EM_H2_REAL ||
  em_var = EM_H2_IMAG || em_var = EM_H3_REAL || em_var = EM_H3_IMAG

theorem updR_R_same (lec : LocalAccum) (a i : ℕ) (v : ℚ) :
    (updR lec a i v).R a i = lec.R a i + v := by
  unfold updR
  simp

theorem updR_R_other (lec : LocalAccum) (a i : ℕ) (v : ℚ) (a' i' : ℕ)
    (h : ¬(a' = a ∧ i' = i)) : (updR lec a i v).R a' i' = lec.R a' i' := by
  unfold updR
  simp only [if_neg h]

theorem foldl_R_invariant {α : Type} (g : LocalAccum → α → LocalAccum)
    (hg : ∀ acc x, (g acc x).R = acc.R) :
    ∀ (l : List α) (lec : LocalAccum), (l.foldl g lec).R = lec.R := by
  intro l
  induction l with
  | nil => intro lec; rfl
  | cons x xs ih =>
    intro lec
    simp only [List.foldl_cons]
    rw [ih, hg]

theorem jacVarBlock_R (ctx : EmCtx) (eqn var : Int) (coeff : ℚ) (i : ℕ)
    (lec : LocalAccum) : (jacVarBlock ctx eqn var coeff i lec).R = lec.R := by
  unfold jacVarBlock
  split
  · apply foldl_R_invariant
    intro acc j
    rfl
  · rfl

theorem jacCrossBlock_R (ctx : EmCtx) (eqn : Int) (dir : ℕ) (cs : CoeffSel)
    (i : ℕ) (lec : LocalAccum) : (jacCrossBlock ctx eqn dir cs i lec).R = lec.R := by
  unfold jacCrossBlock
  apply foldl_R_invariant
  intro acc b
  dsimp only
  split
  · apply foldl_R_invariant
    intro acc2 j
    split <;> rfl
  · rfl

theorem jacTempBlock_R (ctx : EmCtx) (eqn : Int) (EMF EMF_conj : ℚ)
    (cs : CoeffSel) (i : ℕ) (lec : LocalAccum) :
    (jacTempBlock ctx eqn EMF EMF_conj cs i lec).R = lec.R := by
  unfold jacTempBlock
  split
  · apply foldl_R_invariant
    intro acc j
    rfl
  · rfl

theorem jacMeshBlock_R (ctx : EmCtx) (eqn : Int) (EMF EMF_conj : ℚ)
    (cs : CoeffSel) (i : ℕ) (lec : LocalAccum) :
    (jacMeshBlock ctx eqn EMF EMF_conj cs i lec).R = lec.R := by
  unfold jacMeshBlock
  apply foldl_R_invariant
  intro acc b
  dsimp only
  split
  · apply foldl_R_invariant
    intro acc2 j
    rfl
  · rfl

theorem jacSpecBlock_R (ctx : EmCtx) (eqn : Int) (EMF EMF_conj : ℚ)
    (cs : CoeffSel) (i : ℕ) (lec : LocalAccum) :
    (jacSpecBlock ctx eqn EMF EMF_conj cs i lec).R = lec.R := by
  unfold jacSpecBlock
  split
  · apply foldl_R_invariant
    intro acc w
    apply foldl_R_invariant
    intro acc2 j
    rfl
  · rfl

theorem jacPhase_R (ctx : EmCtx) (eqn em_var em_conjvar : Int)
    (EMF EMF_conj : ℚ) (dir : ℕ) (cs : CoeffSel) (lec : LocalAccum) :
    (jacPhase ctx eqn em_var em_conjvar EMF EMF_conj dir cs lec).R = lec.R := by
  unfold jacPhase
  apply foldl_R_invariant
  intro acc i
  split
  · rfl
  · rw [jacSpecBlock_R, jacMeshBlock_R, jacTempBlock_R, jacCrossBlock_R,
      jacVarBlock_R, jacVarBlock_R]

theorem foldl_updR_frame (pe : ℕ) (skip : ℕ → Bool) (f : ℕ → ℚ) :
    ∀ (n : ℕ) (lec : LocalAccum) (i : ℕ), n ≤ i →
    (((List.range n).foldl
        (fun acc m => if skip m then acc else updR acc pe m (f m)) lec).R pe i)
      = lec.R pe i := by
  intro n
  induction n with
  | zero => intro lec i _; rfl
  | succ n ih =>
    intro lec i hi
    rw [List.range_succ, List.foldl_append]
    simp only [List.foldl_cons, List.foldl_nil]
    have hne : ¬(pe = pe ∧ i = n) := by omega
    cases hsk : skip n with
    | true =>
      simp only [hsk, if_true]
      exact ih lec i (by omega)
    | false =>
      simp only [hsk, Bool.false_eq_true, if_false]
      rw [updR_R_other _ _ _ _ _ _ hne]
      exact ih lec i (by omega)

theorem foldl_updR_at (pe : ℕ) (skip : ℕ → Bool) (f : ℕ → ℚ) :
    ∀ (n : ℕ) (lec : LocalAccum) (i : ℕ), i < n → skip i = false →
    (((List.range n).foldl
        (fun acc m => if skip m then acc else updR acc pe m (f m)) lec).R pe i)
      = lec.R pe i + f i := by
  intro n
  induction n with
  | zero => intro lec i hi _; omega
  | succ n ih =>
    intro lec i hi hskip
    rw [List.range_succ, List.foldl_append]
    simp only [List.foldl_cons, List.foldl_nil]
    by_cases him : i = n
    · subst him
      simp only [hskip, Bool.false_eq_true, if_false]
      rw [updR_R_same, foldl_updR_frame pe skip f i lec i (Nat.le_refl i)]
    · cases hsk : skip n with
      | true =>
        simp only [hsk, if_true]
        exact ih lec i (by omega) hskip
      | false =>
        simp only [hsk, Bool.false_eq_true, if_false]
        rw [updR_R_other _ _ _ _ _ _ (by simp [him])]
        exact ih lec i (by omega) hskip

theorem residPhase_R_at (ctx : EmCtx) (eqn : Int) (EMF EMF_conj : ℚ)
    (dir : ℕ) (cs : CoeffSel) (lec : LocalAccum) (i : ℕ)
    (hi : i < ctx.dof eqn) (hskip : ctx.xfemSkip i = false) :
    (residPhase ctx eqn EMF EMF_conj dir cs lec).R (ctx.ep eqn) i
      = lec.R (ctx.ep eqn) i
        + (residTermAdv ctx eqn EMF EMF_conj cs i + residTermDiff ctx eqn dir cs i) :=
  foldl_updR_at (ctx.ep eqn) ctx.xfemSkip
    (fun m => residTermAdv ctx eqn EMF EMF_conj cs m + residTermDiff ctx eqn dir cs m)
    (ctx.dof eqn) lec i hi hskip

theorem assemble_emwave_eq_phases (ctx : EmCtx) (t u d : ℚ)
    (em_eqn em_var em_conjvar : Int) (lec : LocalAccum)
    (EMF EMF_conj : ℚ) (dir : ℕ) (cs : CoeffSel)
    (hact : ¬ ctx.e em_eqn = 0)
    (hsel : selectEMF ctx em_var = some (EMF, EMF_conj, dir))
    (hcs : selectCoeffs ctx em_var = some cs) :
    assemble_emwave ctx t u d em_eqn em_var em_conjvar lec =
      (0, if ctx.assembleJacobian then
            jacPhase ctx em_eqn em_var em_conjvar EMF EMF_conj dir cs
              (if ctx.assembleResidual then
                residPhase ctx em_eqn EMF EMF_conj dir cs lec
              else lec)
          else
            (if ctx.assembleResidual then
              residPhase ctx em_eqn EMF EMF_conj dir cs lec
            else lec)) := by
  unfold assemble_emwave
  rw [if_neg hact, hsel, hcs]

/-- C6: calling `assemble_emwave` on an equation flagged inactive for the
current element's material block (`pd->e[eqn]` is zero) returns status 0 and
leaves the Local Accumulator exactly unchanged. -/
theorem assemble_emwave_inactive_noop (ctx : EmCtx) (t u d : ℚ)
    (em_eqn em_var em_conjvar : Int) (lec : LocalAccum)
    (h : ctx.e em_eqn = 0) :
    assemble_emwave ctx t u d em_eqn em_var em_conjvar lec = (0, lec) := by
  unfold assemble_emwave
  rw [if_pos h]

/-- Concrete context: everything zeroed, equation inactive. -/
def ctx0 : EmCtx where
  numDim := 1
  e := fun _ => 0
  v := fun _ => false
  etm := fun _ _ => 0
  numSpecies := 0
  ep := fun _ => 0
  vp := fun _ => 0
  acousticFreq := 0
  dof := fun _ => 0
  bf := fun _ => default
  wt := 0
  h3 := 0
  dh3dq := fun _ => 0
  em_er := fun _ => 0
  em_ei := fun _ => 0
  em_hr := fun _ => 0
  em_hi := fun _ => 0
  permittivity := 0
  n := 0
  k := 0
  d_n := default
  d_k := default
  assembleResidual := true
  assembleJacobian := true
  xfemSkip := fun _ => false
  maxProbVar := 0

/-- An all-zero Local Accumulator. -/
def lec0 : LocalAccum where
  R := fun _ _ => 0
  J := fun _ _ _ _ => 0

/-- Witness for C6: a concrete inactive-equation call. -/
theorem assemble_emwave_inactive_noop_witness :
    ctx0.e EM_E1_REAL = 0 ∧
    assemble_emwave ctx0 0 0 0 EM_E1_REAL EM_E1_REAL EM_E1_IMAG lec0 = (0, lec0) :=
  ⟨rfl, assemble_emwave_inactive_noop ctx0 0 0 0 EM_E1_REAL EM_E1_REAL EM_E1_IMAG
    lec0 rfl⟩

/-- C7: on an active equation, an `em_var` selector that is not one of the
twelve recognized EM field identifiers makes `assemble_emwave` fail with the
negative status `-1` while adding no contribution to the Local Accumulator. -/
theorem assemble_emwave_invalid_selector (ctx : EmCtx) (t u d : ℚ)
    (em_eqn em_var em_conjvar : Int) (lec : LocalAccum)
    (hact : ¬ ctx.e em_eqn = 0) (hvar : isValidEmVar em_var = false) :
    assemble_emwave ctx t u d em_eqn em_var em_conjvar lec = (-1, lec) := by
  have hv := hvar
  simp only [isValidEmVar, Bool.or_eq_false_iff, decide_eq_false_iff_not] at hv
  obtain ⟨⟨⟨⟨⟨⟨⟨⟨⟨⟨⟨h1, h2⟩, h3⟩, h4⟩, h5⟩, h6⟩, h7⟩, h8⟩, h9⟩, h10⟩, h11⟩, h12⟩ := hv
  have hsel : selectEMF ctx em_var = none := by
    unfold selectEMF
    simp only [if_neg h1, if_neg h2, if_neg h3, if_neg h4, if_neg h5, if_neg h6,
      if_neg h7, if_neg h8, if_neg h9, if_neg h10, if_neg h11, if_neg h12]
  unfold assemble_emwave
  rw [if_neg hact, hsel]

/-- Active-equation variant of `ctx0`. -/
def ctx7 : EmCtx := { ctx0 with e := fun _ => 1 }

/-- Witness for C7: the unrecognized selector `999` on an active equation. -/
theorem assemble_emwave_invalid_selector_witness :
    (¬ ctx7.e EM_E1_REAL = 0) ∧ isValidEmVar 999 = false ∧
    assemble_emwave ctx7 0 0 0 EM_E1_REAL 999 EM_E1_IMAG lec0 = (-1, lec0) :=
  ⟨by decide, by decide,
   assemble_emwave_invalid_selector ctx7 0 0 0 EM_E1_REAL 999 EM_E1_IMAG lec0
     (by decide) (by decide)⟩

/-- C4: on an active equation with residual assembly requested, the quantity
added to the local residual entry of each unskipped test function `i` is the
sum of the advection term `(emf_coeff·EMF + conj_coeff·EMF_conj)·φᵢ` and the
curl/diffusion term `−Σ_{p,q} permute(p,q,dir)·∂φᵢ/∂x_p·cross_field_q`, each
scaled by `det_J·h3·wt` and its term-type activation data, and each zero when
its term flag is inactive (see `residTermAdv` and `residTermDiff`). -/
theorem assemble_emwave_residual_entry (ctx : EmCtx) (t u d : ℚ)
    (em_eqn em_var em_conjvar : Int) (lec : LocalAccum)
    (EMF EMF_conj : ℚ) (dir : ℕ) (cs : CoeffSel) (i : ℕ)
    (hact : ¬ ctx.e em_eqn = 0)
    (hres : ctx.assembleResidual = true)
    (hsel : selectEMF ctx em_var = some (EMF, EMF_conj, dir))
    (hcs : selectCoeffs ctx em_var = some cs)
    (hi : i < ctx.dof em_eqn)
    (hskip : ctx.xfemSkip i = false) :
    ((assemble_emwave ctx t u d em_eqn em_var em_conjvar lec).2).R (ctx.ep em_eqn) i
      = lec.R (ctx.ep em_eqn) i
        + (residTermAdv ctx em_eqn EMF EMF_conj cs i
           + residTermDiff ctx em_eqn dir cs i) := by
  rw [assemble_emwave_eq_phases ctx t u d em_eqn em_var em_conjvar lec
    EMF EMF_conj dir cs hact hsel hcs]
  simp only [hres, if_true]
  cases hj : ctx.assembleJacobian with
  | true =>
    simp only [hj, if_true]
    rw [jacPhase_R]
    exact residPhase_R_at ctx em_eqn EMF EMF_conj dir cs lec i hi hskip
  | false =>
    simp only [hj, Bool.false_eq_true, if_false]
    exact residPhase_R_at ctx em_eqn EMF EMF_conj dir cs lec i hi hskip

/-- Concrete active context for the C4 witness: one dof, unit geometry,
both term types active. -/
def ctx4 : EmCtx :=
  { ctx0 with
    e := fun _ => Int.lor T_ADVECTION T_DIFFUSION
    etm := fun _ _ => 1
    acousticFreq := 1
    dof := fun _ => 1
    bf := fun _ =>
      { phi := fun _ => 1
        grad_phi := fun _ p => if p = 0 then 1 else 0
        detJ := 1
        d_det_J_dm := fun _ _ => 0
        d_grad_phi_dmesh := fun _ _ _ _ => 0 }
    wt := 1
    h3 := 1
    em_er := fun _ => 1
    em_hr := fun p => if p = 2 then 1 else 0
    permittivity := 1
    n := 1
    k := 1
    assembleResidual := true
    assembleJacobian := false }

/-- The coefficient selection of `ctx4` for an `EM_E1_REAL` call. -/
def cs4 : CoeffSel := (selectCoeffs ctx4 EM_E1_REAL).getD default

/-- Witness for C4 at `ctx4`, equation/variable `EM_E1_REAL`, dof `0`. -/
theorem assemble_emwave_residual_entry_witness :
    (¬ ctx4.e EM_E1_REAL = 0) ∧ ctx4.assembleResidual = true ∧
    selectEMF ctx4 EM_E1_REAL = some (ctx4.em_er 0, ctx4.em_ei 0, 0) ∧
    selectCoeffs ctx4 EM_E1_REAL = some cs4 ∧
    0 < ctx4.dof EM_E1_REAL ∧ ctx4.xfemSkip 0 = false ∧
    ((assemble_emwave ctx4 0 0 0 EM_E1_REAL EM_E1_REAL EM_E1_IMAG lec0).2).R
        (ctx4.ep EM_E1_REAL) 0
      = lec0.R (ctx4.ep EM_E1_REAL) 0
        + (residTermAdv ctx4 EM_E1_REAL (ctx4.em_er 0) (ctx4.em_ei 0) cs4 0
           + residTermDiff ctx4 EM_E1_REAL 0 cs4 0) :=
  ⟨by decide, rfl, rfl, rfl, by decide, rfl,
   assemble_emwave_residual_entry ctx4 0 0 0 EM_E1_REAL EM_E1_REAL EM_E1_IMAG lec0
     (ctx4.em_er 0) (ctx4.em_ei 0) 0 cs4 0 (by decide) rfl rfl rfl (by decide) rfl⟩

/-- The six E-family variable identifiers (the two E-equation arms of the
second `switch(em_var)`, src/src/mm_fill_em.c:240-263). -/
def isEFamilyVar (em_var : Int) : Bool :=
  em_var = EM_E1_REAL || em_var = EM_E2_REAL || em_var = EM_E3_REAL ||
  em_var = EM_E1_IMAG || em_var = EM_E2_IMAG || em_var = EM_E3_IMAG

/-- The divisors of the four divisions performed by `selectCoeffs` for an
E-family variable (src/src/mm_fill_em.c:245-248 and 257-260): the source
divides by `n`, `k`, `n`, `k` with no guard against zero. -/
def emSensDivisors (ctx : EmCtx) (em_var : Int) : List ℚ :=
  if isEFamilyVar em_var then [ctx.n, ctx.k, ctx.n, ctx.k] else []

/-- C9: for an E-family selector the `n`/`k` sensitivities of the coupling
coefficients are computed by dividing the corresponding coefficient by `n`
and by `k` (up to the sign the source itself attaches), and whenever `n = 0`
or `k = 0` one of the divisors of those unguarded divisions is zero. -/
theorem selectCoeffs_unguarded_divisions (ctx : EmCtx) (em_var : Int)
    (cs : CoeffSel)
    (hE : isEFamilyVar em_var = true)
    (hcs : selectCoeffs ctx em_var = some cs) :
    cs.emf_coeff_dn = cs.emf_coeff / ctx.n ∧
    cs.emf_coeff_dk = cs.emf_coeff / ctx.k ∧
    cs.conj_coeff_dn = cs.conj_coeff / ctx.n ∧
    (cs.conj_coeff_dk = cs.conj_coeff / ctx.k ∨
     cs.conj_coeff_dk = -(cs.conj_coeff / ctx.k)) ∧
    ((ctx.n = 0 ∨ ctx.k = 0) → (0 : ℚ) ∈ emSensDivisors ctx em_var) := by
  have hmem : (ctx.n = 0 ∨ ctx.k = 0) → (0 : ℚ) ∈ emSensDivisors ctx em_var := by
    intro h0
    unfold emSensDivisors
    rw [if_pos hE]
    rcases h0 with h0 | h0 <;> simp [h0]
  have hv := hE
  simp only [isEFamilyVar, Bool.or_eq_true, decide_eq_true_eq] at hv
  rcases hv with ((((hv | hv) | hv) | hv) | hv) | hv <;>
  · subst hv
    unfold selectCoeffs at hcs
    simp only [EM_E1_REAL, EM_E2_REAL, EM_E3_REAL, EM_E1_IMAG, EM_E2_IMAG,
      EM_E3_IMAG, EM_H1_REAL, EM_H1_IMAG, EM_H2_REAL, EM_H2_IMAG, EM_H3_REAL,
      EM_H3_IMAG, Int.reduceEq, true_or, or_true, or_self, or_false, false_or,
      reduceIte, Option.some.injEq] at hcs
    subst hcs
    refine ⟨rfl, rfl, ?_, ?_, hmem⟩ <;>
      simp [neg_div]

/-- Lossless-medium variant of `ctx4` for the C9 witness: `k = 0`. -/
def ctx9 : EmCtx := { ctx4 with k := 0 }

/-- The coefficient selection of `ctx9` for an `EM_E1_REAL` call. -/
def cs9 : CoeffSel := (selectCoeffs ctx9 EM_E1_REAL).getD default

/-- Witness for C9 at `ctx9` (`n = 1`, `k = 0`), selector `EM_E1_REAL`. -/
theorem selectCoeffs_unguarded_divisions_witness :
    isEFamilyVar EM_E1_REAL = true ∧
    selectCoeffs ctx9 EM_E1_REAL = some cs9 ∧
    (cs9.emf_coeff_dn = cs9.emf_coeff / ctx9.n ∧
     cs9.emf_coeff_dk = cs9.emf_coeff / ctx9.k ∧
     cs9.conj_coeff_dn = cs9.conj_coeff / ctx9.n ∧
     (cs9.conj_coeff_dk = cs9.conj_coeff / ctx9.k ∨
      cs9.conj_coeff_dk = -(cs9.conj_coeff / ctx9.k)) ∧
     ((ctx9.n = 0 ∨ ctx9.k = 0) → (0 : ℚ) ∈ emSensDivisors ctx9 EM_E1_REAL)) :=
  ⟨by decide, rfl,
   selectCoeffs_unguarded_divisions ctx9 EM_E1_REAL cs9 (by decide) rfl⟩

/-- Geometry-parametrized context for C2: only `T_DIFFUSION` active, only the
first mesh-displacement variable coupled, one dof everywhere, and every EM
field identically zero, so the assembled residual cannot depend on any of the
geometric quantities `detJ`, `h3`, `wt`, `grad_phi`, `d_det_J_dm`,
`d_grad_phi_dmesh`, `dh3dq`. -/
def ctx2geo (dJ h3v wtv : ℚ) (gp ddm : ℕ → ℕ → ℚ)
    (dgm : ℕ → ℕ → ℕ → ℕ → ℚ) (dh3 : ℕ → ℚ) : EmCtx :=
  { ctx0 with
    numDim := 1
    e := fun _ => T_DIFFUSION
    v := fun w => decide (w = MESH_DISPLACEMENT1)
    etm := fun _ _ => 1
    vp := fun _ => 1
    acousticFreq := 1
    dof := fun _ => 1
    bf := fun _ =>
      { phi := fun _ => 1
        grad_phi := gp
        detJ := dJ
        d_det_J_dm := ddm
        d_grad_phi_dmesh := dgm }
    wt := wtv
    h3 := h3v
    dh3dq := dh3
    permittivity := 1
    n := 1
    k := 1
    assembleResidual := true
    assembleJacobian := true }

/-- A concrete basis gradient: `grad_phi_0 = (1,1,1)`. -/
def gp2 : ℕ → ℕ → ℚ := fun _ _ => 1

/-- The concrete instance of `ctx2geo` with unit geometry and all mesh
sensitivities of the geometry equal to zero. -/
def ctx2 : EmCtx := ctx2geo 1 1 1 gp2 (fun _ _ => 0) (fun _ _ _ _ => 0) (fun _ => 0)

/-- C2: the mesh-displacement Jacobian entry written by `assemble_emwave` is
not the derivative of the assembled residual.  At `ctx2` every EM field is
zero, so (third conjunct) the accumulated residual entry is `0` for every
value of the geometric quantities that mesh displacement controls — its mesh
derivative is identically `0` — yet (first conjunct) the code adds `3` to the
mesh-displacement Jacobian entry, coming from the degenerate `diff_b` sub-term
`Σ_p ∂φᵢ/∂x_p · detJ·h3·wt` of `jacMeshDiff`, which drops the
`permute(p,q,dir)`, `cross_field` and sign structure of the curl residual. -/
theorem assemble_emwave_mesh_jacobian_mismatch :
    ((assemble_emwave ctx2 0 0 0 EM_E1_REAL EM_E1_REAL EM_E1_IMAG lec0).2).J 0 1 0 0
      = 3 ∧
    (∀ (dJ h3v wtv : ℚ) (gp ddm : ℕ → ℕ → ℚ)
       (dgm : ℕ → ℕ → ℕ → ℕ → ℚ) (dh3 : ℕ → ℚ),
      ((assemble_emwave (ctx2geo dJ h3v wtv gp ddm dgm dh3) 0 0 0
          EM_E1_REAL EM_E1_REAL EM_E1_IMAG lec0).2).R 0 0 = 0) := by
  constructor
  · norm_num [assemble_emwave, selectEMF, selectCoeffs, residPhase, jacPhase,
      jacVarBlock, jacCrossBlock, jacTempBlock, jacMeshBlock, jacSpecBlock,
      jacMeshAdv, jacMeshDiff, jacAdvEntry, jacCrossEntry, jacTempEntry,
      jacSpecEntry, residTermAdv, residTermDiff, updR, updJ, ctx2, ctx2geo,
      ctx0, lec0, gp2, EM_E1_REAL, EM_E1_IMAG, EM_E2_REAL, EM_E2_IMAG,
      EM_E3_REAL, EM_E3_IMAG, EM_H1_REAL, EM_H1_IMAG, MESH_DISPLACEMENT1,
      TEMPERATURE, MASS_FRACTION, T_DIFFUSION, T_ADVECTION, LOG2_ADVECTION,
      LOG2_DIFFUSION, List.range_succ, permute, delta,
      show Int.land 32 2 = 0 from by decide,
      show Int.land 32 32 = 32 from by decide]
  · intro dJ h3v wtv gp ddm dgm dh3
    rw [assemble_emwave_eq_phases (ctx2geo dJ h3v wtv gp ddm dgm dh3) 0 0 0
        EM_E1_REAL EM_E1_REAL EM_E1_IMAG lec0 0 0 0
        ((selectCoeffs (ctx2geo dJ h3v wtv gp ddm dgm dh3) EM_E1_REAL).getD default)
        (by norm_num [ctx2geo, T_DIFFUSION]) rfl rfl]
    simp only [if_true]
    show (jacPhase _ _ _ _ _ _ _ _ (residPhase _ _ _ _ _ _ _)).R 0 0 = 0
    rw [jacPhase_R]
    have h00 := residPhase_R_at (ctx2geo dJ h3v wtv gp ddm dgm dh3) EM_E1_REAL 0 0 0
      ((selectCoeffs (ctx2geo dJ h3v wtv gp ddm dgm dh3) EM_E1_REAL).getD default)
      lec0 0 (by norm_num [ctx2geo]) rfl
    rw [show ((ctx2geo dJ h3v wtv gp ddm dgm dh3).ep EM_E1_REAL) = 0 from rfl] at h00
    rw [h00]
    norm_num [residTermAdv, residTermDiff, selectCoeffs, lec0, ctx2geo, ctx0,
      EM_E1_REAL, EM_E2_REAL, EM_E3_REAL, T_DIFFUSION, T_ADVECTION,
      Int.reduceEq, Option.getD_some,
      show Int.land 32 2 = 0 from by decide,
      show Int.land 32 32 = 32 from by decide]

/- Modelled from the spec: the four far-field boundary-condition identifiers
from goma's `rf_bc_const.h` (not part of `src/`); concrete values arbitrary
but distinct. -/

def EM_ER_FARFIELD_DIRECT_BC : Int := 60

def EM_EI_FARFIELD_DIRECT_BC : Int := 61

def EM_HR_FARFIELD_DIRECT_BC : Int := 62

def EM_HI_FARFIELD_DIRECT_BC : Int := 63

/-- Everything `apply_em_farfield_direct` reads from the globals
(`fv`, `mp`, `pd`, `ei`, `bf`, `af`), from the external resolvers
`refractive_index` / `extinction_index` (`n1`, `k1`) and from the C library
(`csqrt`), together with the values of the function's uninitialized locals:
`n2_uninit` is the value of the local `n2`, which the source NEVER assigns
(line 656 stores `bc_data[0]` into `ns`, not into `n2`); `cpx_uninit` is the
initial content of the local array `cpx_func`; `var_uninit`, `real_uninit`
and `imag_uninit` are the initial contents of the locals `var`, `real`,
`imag` that stay unset when `bc_name` is unrecognized. -/
structure BcCtx where
  numDim : ℕ
  v : Int → Bool
  dof : Int → ℕ
  bfphi : Int → ℕ → ℚ
  snormal : ℕ → ℚ
  em_er : ℕ → ℚ
  em_ei : ℕ → ℚ
  permittivity : ℚ
  n1 : ℚ
  k1 : ℚ
  assembleJacobian : Bool
  csqrt : Cplx → Cplx
  n2_uninit : ℚ
  cpx_uninit : ℕ → Cplx
  var_uninit : Int
  real_uninit : ℚ
  imag_uninit : ℚ
deriving Inhabited

/-- The exterior complex permittivity actually computed at
src/src/mm_fill_em.c:664-666: it is built from the never-assigned local `n2`
(line 656 stores `bc_data[0]` into `ns`, not into `n2`) and from
`k2 = bc_data[1]` (line 657). -/
def farfieldPermittivity2 (ctx : BcCtx) (bc_data : ℕ → ℚ) : Cplx :=
  cpxPermittivity ctx.n2_uninit (bc_data 1) ctx.permittivity

/-- Modelled from the spec: the exterior permittivity the spec prescribes,
`(bc_data[0] + i·bc_data[1])² · ε_base`, with the exterior refractive index
read from `bc_data[0]`. -/
def specPermittivity2 (ctx : BcCtx) (bc_data : ℕ → ℚ) : Cplx :=
  cpxPermittivity (bc_data 0) (bc_data 1) ctx.permittivity

/-- `d_func[p][v][j] = val` — plain assignment (the boundary kernel writes,
it does not accumulate). -/
def setD (d : ℕ → Int → ℕ → ℚ) (p : ℕ) (v : Int) (j : ℕ) (val : ℚ) :
    ℕ → Int → ℕ → ℚ :=
  fun p' v' j' => if p' = p ∧ v' = v ∧ j' = j then val else d p' v' j'

/-- `apply_em_farfield_direct` (src/src/mm_fill_em.c:580-805).  Returns the
status together with the final contents of the output arrays `func` and
`d_func`.  Faithful details: the E-branch of the first `switch` uses plain
assignment `cpx_func[p] = ...` inside the `q`,`r` loops (src line 699), so
each inner iteration overwrites the previous one (modelled by a fold whose
accumulator is discarded); none of the three `switch` statements has a
`default` arm, so an unrecognized `bc_name` leaves `func` and `d_func`
untouched and the function still returns `0`. -/
def apply_em_farfield_direct (ctx : BcCtx) (func : ℕ → ℚ)
    (d_func : ℕ → Int → ℕ → ℚ) (_xi : ℕ → ℚ) (bc_name : Int)
    (bc_data : ℕ → ℚ) : Int × (ℕ → ℚ) × (ℕ → Int → ℕ → ℚ) :=
  let cpx_permittivity1 := cpxPermittivity ctx.n1 ctx.k1 ctx.permittivity
  let impedance1 := impedanceOf ctx.csqrt mag_permeability cpx_permittivity1
  let _ns := bc_data 0
  let cpx_permittivity2 := farfieldPermittivity2 ctx bc_data
  let impedance2 := impedanceOf ctx.csqrt mag_permeability cpx_permittivity2
  let normal : ℕ → Cplx := fun i => Cplx.ofRat (ctx.snormal i)
  let E1 : ℕ → Cplx := fun i => ⟨ctx.em_er i, ctx.em_ei i⟩
  let Gamma := farGamma impedance1 impedance2
  let tau := farTau impedance1 impedance2
  let incident : ℕ → Cplx := fun i =>
    if i = 0 then ⟨bc_data 2, bc_data 5⟩
    else if i = 1 then ⟨bc_data 3, bc_data 6⟩
    else ⟨bc_data 4, bc_data 7⟩
  let cpx_func : ℕ → Cplx :=
    if bc_name = EM_ER_FARFIELD_DIRECT_BC ∨ bc_name = EM_EI_FARFIELD_DIRECT_BC then
      fun p =>
        (List.range 3).foldl (fun acc1 q =>
          (List.range 3).foldl (fun _acc2 r =>
            Cplx.ofRat (permute p q r)
              * (tau / (1 + Gamma) * normal q * E1 r + normal q * incident r))
            acc1)
          (ctx.cpx_uninit p)
    else if bc_name = EM_HR_FARFIELD_DIRECT_BC ∨ bc_name = EM_HI_FARFIELD_DIRECT_BC then
      fun p => (-(E1 p)) / impedance2 * tau / (1 + Gamma) - incident p / impedance2
    else ctx.cpx_uninit
  let sw2 : (ℕ → ℚ) × Int × ℚ × ℚ :=
    if bc_name = EM_ER_FARFIELD_DIRECT_BC then
      (fun p => if p < 3 then (cpx_func p).creal else func p, EM_E1_REAL, 1, 0)
    else if bc_name = EM_EI_FARFIELD_DIRECT_BC then
      (fun p => if p < 3 then (cpx_func p).cimag else func p, EM_E1_IMAG, 0, 1)
    else if bc_name = EM_HR_FARFIELD_DIRECT_BC then
      (fun p => if p < 3 then (cpx_func p).creal else func p, EM_H1_REAL, 1, 0)
    else if bc_name = EM_HI_FARFIELD_DIRECT_BC then
      (fun p => if p < 3 then (cpx_func p).cimag else func p, EM_H1_IMAG, 0, 1)
    else (func, ctx.var_uninit, ctx.real_uninit, ctx.imag_uninit)
  let func2 := sw2.1
  let var := sw2.2.1
  let real := sw2.2.2.1
  let imag := sw2.2.2.2
  let d2 : ℕ → Int → ℕ → ℚ :=
    if ctx.assembleJacobian then
      if bc_name = EM_ER_FARFIELD_DIRECT_BC ∨ bc_name = EM_EI_FARFIELD_DIRECT_BC then
        (List.range ctx.numDim).foldl (fun dacc g =>
          let gvar := var + Int.ofNat g
          (List.range ctx.numDim).foldl (fun dacc2 p =>
            (List.range ctx.numDim).foldl (fun dacc3 q =>
              (List.range ctx.numDim).foldl (fun dacc4 r =>
                (List.range ctx.numDim).foldl (fun dacc5 j =>
                  setD dacc5 p gvar j
                    (real * (Cplx.ofRat (permute p q r) * tau / (1 + Gamma)
                              * normal q * Cplx.ofRat (delta q g)
                              * Cplx.ofRat (ctx.bfphi gvar j)).creal
                     + imag * (Cplx.ofRat (permute p q r) * tau / (1 + Gamma)
                              * normal q * Cplx.ofRat (delta q g)
                              * Cplx.ofRat (ctx.bfphi gvar j)).cimag))
                  dacc4) dacc3) dacc2) dacc) d_func
      else if bc_name = EM_HR_FARFIELD_DIRECT_BC ∨ bc_name = EM_HI_FARFIELD_DIRECT_BC then
        (List.range ctx.numDim).foldl (fun dacc g =>
          let gvar := var + Int.ofNat g
          if ctx.v gvar = true then
            (List.range 3).foldl (fun dacc2 p =>
              (List.range (ctx.dof var)).foldl (fun dacc3 j =>
                setD dacc3 p gvar j
                  (-(real * (Cplx.ofRat (ctx.bfphi gvar j) / impedance2 / (1 + Gamma)
                              * tau).creal)
                   - imag * (Cplx.ofRat (ctx.bfphi gvar j) / impedance2 / (1 + Gamma)
                              * tau).cimag))
                dacc2) dacc
          else dacc) d_func
      else d_func
    else d_func
  (0, func2, d2)

/-- The four recognized far-field boundary-condition kinds (the non-`default`
arms of the `switch(bc_name)` statements). -/
def isFarfieldBcName (bc_name : Int) : Bool :=
  bc_name = EM_ER_FARFIELD_DIRECT_BC || bc_name = EM_EI_FARFIELD_DIRECT_BC ||
  bc_name = EM_HR_FARFIELD_DIRECT_BC || bc_name = EM_HI_FARFIELD_DIRECT_BC

/-- C10: for any `bc_name` that is none of the four recognized far-field
kinds, `apply_em_farfield_direct` still returns status `0` and writes neither
`func` nor `d_func`: all three switches fall through without a `default`. -/
theorem apply_em_farfield_direct_unrecognized (ctx : BcCtx) (func : ℕ → ℚ)
    (d_func : ℕ → Int → ℕ → ℚ) (xi : ℕ → ℚ) (bc_name : Int) (bc_data : ℕ → ℚ)
    (h : isFarfieldBcName bc_name = false) :
    apply_em_farfield_direct ctx func d_func xi bc_name bc_data
      = (0, func, d_func) := by
  have hv := h
  simp only [isFarfieldBcName, Bool.or_eq_false_iff, decide_eq_false_iff_not] at hv
  obtain ⟨⟨⟨h1, h2⟩, h3⟩, h4⟩ := hv
  unfold apply_em_farfield_direct
  simp only [h1, h2, h3, h4, or_self, or_false, false_or, if_false, ite_self,
    reduceIte, ite_false]

/-- A concrete boundary context with zeroed data. -/
def bcCtx0 : BcCtx where
  numDim := 1
  v := fun _ => false
  dof := fun _ => 0
  bfphi := fun _ _ => 0
  snormal := fun _ => 0
  em_er := fun _ => 0
  em_ei := fun _ => 0
  permittivity := 0
  n1 := 0
  k1 := 0
  assembleJacobian := true
  csqrt := fun z => z
  n2_uninit := 0
  cpx_uninit := fun _ => 0
  var_uninit := 0
  real_uninit := 0
  imag_uninit := 0

/-- The zero residual output array. -/
def func0 : ℕ → ℚ := fun _ => 0

/-- The zero Jacobian output array. -/
def dfunc0 : ℕ → Int → ℕ → ℚ := fun _ _ _ => 0

/-- Witness for C10 at the unrecognized kind `0`. -/
theorem apply_em_farfield_direct_unrecognized_witness :
    isFarfieldBcName 0 = false ∧
    apply_em_farfield_direct bcCtx0 func0 dfunc0 (fun _ => 0) 0 func0
      = (0, func0, dfunc0) :=
  ⟨by decide,
   apply_em_farfield_direct_unrecognized bcCtx0 func0 dfunc0 (fun _ => 0) 0 func0
     (by decide)⟩

/-- Modelled from the spec: the accumulated permutation triple sum the
E-branch is specified to produce,
`Σ_{q,r} permute(p,q,r)·(τ/(1+Γ)·normal_q·E1_r + normal_q·incident_r)`,
with `Γ`, `τ`, `normal`, `E1`, `incident` computed exactly as in
`apply_em_farfield_direct`. -/
def emFarfieldClaimedSum (ctx : BcCtx) (bc_data : ℕ → ℚ) (p : ℕ) : Cplx :=
  let impedance1 := impedanceOf ctx.csqrt mag_permeability
    (cpxPermittivity ctx.n1 ctx.k1 ctx.permittivity)
  let impedance2 := impedanceOf ctx.csqrt mag_permeability
    (farfieldPermittivity2 ctx bc_data)
  let normal : ℕ → Cplx := fun i => Cplx.ofRat (ctx.snormal i)
  let E1 : ℕ → Cplx := fun i => ⟨ctx.em_er i, ctx.em_ei i⟩
  let Gamma := farGamma impedance1 impedance2
  let tau := farTau impedance1 impedance2
  let incident : ℕ → Cplx := fun i =>
    if i = 0 then ⟨bc_data 2, bc_data 5⟩
    else if i = 1 then ⟨bc_data 3, bc_data 6⟩
    else ⟨bc_data 4, bc_data 7⟩
  ∑ q : Fin 3, ∑ r : Fin 3,
    Cplx.ofRat (permute p q.val r.val)
      * (tau / (1 + Gamma) * normal q.val * E1 r.val + normal q.val * incident r.val)

/-- Boundary context for the C1 failing input: `normal = (1,0,0)`, interior
field zero, `csqrt` the constant-one function (so `Γ = 0`, `τ = 1`). -/
def bcCtx1 : BcCtx :=
  { bcCtx0 with
    snormal := fun i => if i = 0 then 1 else 0
    csqrt := fun _ => 1
    permittivity := 1
    n1 := 1 }

/-- Boundary data for the C1 failing input: incident field `(0, 1, 0)` (real),
all other entries zero. -/
def bcData1 : ℕ → ℚ := fun m => if m = 3 then 1 else 0

/-- C1: at the concrete failing input the E-kind branch emits the residual
`func[2] = 0` — the assignment `cpx_func[p] = ...` (src line 699) keeps only
the last `(q,r) = (2,2)` term, which carries `permute(p,2,2) = 0` — while the
specified permutation triple sum at `p = 2` is `1`. -/
theorem apply_em_farfield_E_branch_zero :
    ((apply_em_farfield_direct bcCtx1 func0 dfunc0 (fun _ => 0)
        EM_ER_FARFIELD_DIRECT_BC bcData1).2.1) 2 = 0 ∧
    emFarfieldClaimedSum bcCtx1 bcData1 2 = ⟨1, 0⟩ := by
  constructor
  · norm_num [apply_em_farfield_direct, bcCtx1, bcCtx0, bcData1, func0, dfunc0,
      farfieldPermittivity2, cpxPermittivity, impedanceOf, farGamma, farTau,
      mag_permeability, permute, Cplx.creal, Cplx.cimag, Cplx.ofRat, Cplx.I,
      Cplx.normSq, Cplx.ext_iff, List.range_succ,
      EM_ER_FARFIELD_DIRECT_BC, EM_EI_FARFIELD_DIRECT_BC,
      EM_HR_FARFIELD_DIRECT_BC, EM_HI_FARFIELD_DIRECT_BC, Int.reduceEq]
  · norm_num [emFarfieldClaimedSum, bcCtx1, bcCtx0, bcData1,
      farfieldPermittivity2, cpxPermittivity, impedanceOf, farGamma, farTau,
      mag_permeability, permute, Cplx.ofRat, Cplx.I, Cplx.normSq, Cplx.ext_iff,
      Fin.sum_univ_three]

/-- Boundary context for the C3 failing input: base permittivity `1` and
(uninitialized) `n2 = 0`. -/
def bcCtx3 : BcCtx := { bcCtx0 with permittivity := 1 }

/-- Boundary data for the C3 failing input: exterior refractive index slot
`bc_data[0] = 5`, all other entries zero. -/
def bcData3 : ℕ → ℚ := fun m => if m = 0 then 5 else 0

/-- C3: the exterior permittivity actually used by
`apply_em_farfield_direct` ignores `bc_data[0]`: at the failing input it
evaluates to `0` (from the never-assigned local `n2`), while the specified
`(bc_data[0] + i·bc_data[1])²·ε_base` is `25`; and it is invariant under
arbitrary changes of `bc_data[0]`. -/
theorem farfield_exterior_permittivity_ignores_bc_data :
    farfieldPermittivity2 bcCtx3 bcData3 = ⟨0, 0⟩ ∧
    specPermittivity2 bcCtx3 bcData3 = ⟨25, 0⟩ ∧
    (∀ x : ℚ, farfieldPermittivity2 bcCtx3 (fun m => if m = 0 then x else bcData3 m)
        = farfieldPermittivity2 bcCtx3 bcData3) := by
  refine ⟨?_, ?_, fun x => rfl⟩
  · norm_num [farfieldPermittivity2, cpxPermittivity, bcCtx3, bcCtx0, bcData3,
      Cplx.ofRat, Cplx.I, Cplx.ext_iff]
  · norm_num [specPermittivity2, cpxPermittivity, bcCtx3, bcCtx0, bcData3,
      Cplx.ofRat, Cplx.I, Cplx.ext_iff]

end Goma
